import Mathlib

/-
Verification development for the caching core of nestjs-redis-cacheable.

The embedded code is the published library variant:
  - src/cacheable.helper.ts   (the watchdog variant: key hashing via
    safe-stable-stringify, pendingCacheMap, pendingMethodCallMap with a
    watchdog timer, ceiling millisecond-to-second TTL conversion),
  - cacheable.evict.ts        (the Cacheable and CacheEvict decorators),
  - cacheable.interface.ts    (key builder types).
An older draft of the helper (JSON.stringify hashing, no watchdog) is also
embedded where a claim compares the two.

Plan of the file: first the key composer (JavaScript values, the stable
serialization used for automatic keys, the two extract variants, and
generateComposedKey), then the CacheEvict wrapper, then the TTL conversion,
then a small-step cooperative-concurrency semantics of cacheableHandle
(store reads, producer invocations, store writes and watchdog timers are
suspension points resolved by an external scheduler; everything between two
suspension points runs atomically, which is the Node.js execution model).
All theorems come after all definitions.
-/

/- ───────────────────────── JavaScript values for arguments ──────────── -/

/-- A JavaScript value appearing in a decorated method argument list.
Functions are opaque markers (only their non-serializability matters for
key composition), and jref marks a circular back-reference inside the
structure. -/
inductive JVal where
  | jnull : JVal
  | jbool : Bool → JVal
  | jnum : Int → JVal
  | jstr : String → JVal
  | jundef : JVal
  | jfun : JVal
  | jref : JVal
  | jarr : List JVal → JVal
  | jobj : List (String × JVal) → JVal

/-- Values that JSON-style serialization skips when they are object
property values (undefined and functions). -/
def skipVal : JVal → Bool
  | JVal.jundef => true
  | JVal.jfun => true
  | _ => false

/-- Quote a string as a JSON string literal (escaping is not modelled;
keys and string arguments in the claims contain no quote characters). -/
def quoteS (s : String) : String := "\"" ++ s ++ "\""

/-- Comma-join a list of rendered fragments. -/
def commaJoin : List String → String
  | [] => ""
  | [s] => s
  | s :: t => s ++ "," ++ commaJoin t

/-- Render one already-rendered object field as quotedKey:value. -/
def renderPair (p : String × String) : String := quoteS p.1 ++ ":" ++ p.2

/-- Sort rendered object fields by their key, ascending: this is the
deterministic key ordering safe-stable-stringify applies to every object
before rendering it. -/
def sortPairs (l : List (String × String)) : List (String × String) :=
  List.insertionSort (fun p q => p.1 ≤ q.1) l

mutual

/-- Model of safe-stable-stringify on a JavaScript value (the helper calls
it on the argument array in generateComposedKey).  Deterministic and total:
object keys are sorted, undefined and function property values are omitted,
undefined and functions in array position render as null (as in
JSON.stringify), and circular references render as the string
"[Circular]" instead of throwing. -/
def stringifyJ : JVal → String
  | JVal.jnull => "null"
  | JVal.jbool true => "true"
  | JVal.jbool false => "false"
  | JVal.jnum n => toString n
  | JVal.jstr s => quoteS s
  | JVal.jundef => "null"
  | JVal.jfun => "null"
  | JVal.jref => quoteS "[Circular]"
  | JVal.jarr l => "[" ++ commaJoin (strList l) ++ "]"
  | JVal.jobj l =>
      "\x7b" ++ commaJoin ((sortPairs (renderPairs l)).map renderPair) ++ "\x7d"

/-- Render every element of an array value. -/
def strList : List JVal → List String
  | [] => []
  | v :: t => stringifyJ v :: strList t

/-- Render the fields of an object value, dropping fields whose value is
undefined or a function (JSON.stringify semantics, kept by
safe-stable-stringify). -/
def renderPairs : List (String × JVal) → List (String × String)
  | [] => []
  | (k, v) :: t =>
      if skipVal v then renderPairs t else (k, stringifyJ v) :: renderPairs t

end

mutual

/-- True when the value contains a function, an undefined, or a circular
reference somewhere inside: exactly the inputs on which a naive
JSON.stringify either throws or is lossy. -/
def hasNonSerializable : JVal → Bool
  | JVal.jundef => true
  | JVal.jfun => true
  | JVal.jref => true
  | JVal.jarr l => hasNonSerializableList l
  | JVal.jobj l => hasNonSerializableFields l
  | _ => false

/-- List form of hasNonSerializable. -/
def hasNonSerializableList : List JVal → Bool
  | [] => false
  | v :: t => hasNonSerializable v || hasNonSerializableList t

/-- Field-list form of hasNonSerializable. -/
def hasNonSerializableFields : List (String × JVal) → Bool
  | [] => false
  | p :: t => hasNonSerializable p.2 || hasNonSerializableFields t

end

mutual

/-- Naive JSON.stringify as a partial function: it throws (returns none)
on circular structures.  Kept as the contrast the spec draws against the
stable serialization; the automatic key path never uses it. -/
def naiveStringify : JVal → Option String
  | JVal.jnull => some "null"
  | JVal.jbool true => some "true"
  | JVal.jbool false => some "false"
  | JVal.jnum n => some (toString n)
  | JVal.jstr s => some (quoteS s)
  | JVal.jundef => some "null"
  | JVal.jfun => some "null"
  | JVal.jref => none
  | JVal.jarr l => (naiveStringifyList l).map (fun r => "[" ++ commaJoin r ++ "]")
  | JVal.jobj l =>
      (naiveStringifyFields l).map
        (fun r => "\x7b" ++ commaJoin (r.map renderPair) ++ "\x7d")

/-- List form of naiveStringify. -/
def naiveStringifyList : List JVal → Option (List String)
  | [] => some []
  | v :: t => do
      let s ← naiveStringify v
      let r ← naiveStringifyList t
      pure (s :: r)

/-- Field-list form of naiveStringify (no key sorting: insertion order). -/
def naiveStringifyFields : List (String × JVal) → Option (List (String × String))
  | [] => some []
  | (k, v) :: t =>
      if skipVal v then naiveStringifyFields t
      else do
        let s ← naiveStringify v
        let r ← naiveStringifyFields t
        pure ((k, s) :: r)

end

/- ───────────────────────── Key specifications ───────────────────────── -/

/-- A key (or namespace) specification: a literal string, a literal array
of strings, or a builder function from the call arguments to a string or
an array of strings (CacheKeyBuilder / CacheEvictKeyBuilder in
cacheable.interface.ts).  src carries the JavaScript source text of the
function, which is what the function coerces to in a template literal. -/
inductive KeySpec where
  | str : String → KeySpec
  | strs : List String → KeySpec
  | fn : String → (List JVal → String ⊕ List String) → KeySpec

/-- Result of the published extract: either a proper array of strings, or
a JavaScript function value that leaked through (funSingleton is a
one-element array holding the builder function itself, rawFun is the
builder function itself standing where an array was expected). -/
inductive ExtractResult where
  | strings : List String → ExtractResult
  | funSingleton : String → ExtractResult
  | rawFun : String → ExtractResult
deriving DecidableEq, Repr

namespace Helper

/-- Model of extract in the published helper (src/cacheable.helper.ts):

  const extract = (b, a) =>
    Array.isArray(b instanceof Function ? b(...a) : b) ? b : [b];

When b is a builder function the call result is only tested with
Array.isArray; the expression then yields b itself (cast as an array) or
the one-element array [b] — the call result is discarded. -/
def extract (b : KeySpec) (args : List JVal) : ExtractResult :=
  match b with
  | KeySpec.str s => ExtractResult.strings [s]
  | KeySpec.strs l => ExtractResult.strings l
  | KeySpec.fn src f =>
      match f args with
      | Sum.inr _ => ExtractResult.rawFun src
      | Sum.inl _ => ExtractResult.funSingleton src

end Helper

namespace HelperV0

/-- Model of extract in the older draft helper:

  function extract(builder, args) {
    const v = builder instanceof Function ? builder(...args) : builder;
    return Array.isArray(v) ? v : [v];
  }

This one resolves a builder function to its returned string or array. -/
def extract (b : KeySpec) (args : List JVal) : List String :=
  match b with
  | KeySpec.str s => [s]
  | KeySpec.strs l => l
  | KeySpec.fn _ f =>
      match f args with
      | Sum.inl s => [s]
      | Sum.inr l => l

end HelperV0

/-- An element of the key list produced by generateComposedKey: normally a
string, but with the published extract a builder function value can stand
in key position (its source text is kept for template-literal coercion). -/
inductive KeyElem where
  | str : String → KeyElem
  | fnval : String → KeyElem
deriving DecidableEq, Repr

/-- JavaScript truthiness filter applied by generateComposedKey to the key
and namespace options (opts.key ? ... and opts.namespace && ...): the
empty string is falsy and disables the option. -/
def truthyOpt : Option KeySpec → Option KeySpec
  | some (KeySpec.str "") => none
  | o => o

/-- The namespace value substituted into the template literal
nsHead:key.  strings l uses l[0] (undefined, coerced to the text
undefined, when l is empty); a leaked function value coerces to its
source text; a raw function indexed with [0] gives undefined. -/
def nsHeadOf : ExtractResult → String
  | ExtractResult.strings [] => "undefined"
  | ExtractResult.strings (s :: _) => s
  | ExtractResult.funSingleton src => src
  | ExtractResult.rawFun _ => "undefined"

/-- Model of generateComposedKey in the published helper
(src/cacheable.helper.ts, lines 50-66).  The hash argument stands for the
md5 hex digest (an arbitrary deterministic function of the serialized
arguments; its definition does not matter for any claim).  The error case
is the TypeError thrown by keys.map when extract produced a bare function
where an array was expected. -/
def generateComposedKey (hash : String → String) (key : Option KeySpec)
    (nspace : Option KeySpec) (methodName : String) (args : List JVal) :
    Except Unit (List KeyElem) :=
  let keysR : ExtractResult :=
    match truthyOpt key with
    | some b => Helper.extract b args
    | none =>
        ExtractResult.strings
          [methodName ++ "@" ++ hash (stringifyJ (JVal.jarr args))]
  match keysR with
  | ExtractResult.rawFun _ => Except.error ()
  | _ =>
    let keyElems : List KeyElem :=
      match keysR with
      | ExtractResult.strings l => l.map KeyElem.str
      | ExtractResult.funSingleton src => [KeyElem.fnval src]
      | ExtractResult.rawFun _ => []
    let ns : Option String :=
      match truthyOpt nspace with
      | none => none
      | some b => some (nsHeadOf (Helper.extract b args))
    Except.ok (keyElems.map (fun e =>
      match ns with
      | none => e
      | some n =>
          match e with
          | KeyElem.str s => KeyElem.str (n ++ ":" ++ s)
          | KeyElem.fnval src => KeyElem.str (n ++ ":" ++ src)))

/-- The key the Cacheable decorator hands to the coalescing engine: element
zero of the composed key list (cacheable.evict.ts: generateComposedKey({...})[0]).
none models the undefined produced by indexing an empty array. -/
def cacheableComposedKey (hash : String → String) (key : Option KeySpec)
    (nspace : Option KeySpec) (methodName : String) (args : List JVal) :
    Except Unit (Option KeyElem) :=
  (generateComposedKey hash key nspace methodName args).map List.head?

/- ───────────────────────── CacheEvict wrapper ───────────────────────── -/

/-- Engine-level value, payload and error types (opaque data, modelled as
naturals). -/
abbrev Value := Nat

/-- Raw store payload. -/
abbrev Payload := Nat

/-- Error thrown by a decorated method. -/
abbrev Err := Nat

/-- Model of the CacheEvict wrapper body (cacheable.evict.ts):

  try { result = await original.apply(this, args); }
  finally {
    try { await Promise.all(opts.map(o => mdel(...keys(o)))); } catch {}
  }
  return result;

Arguments: the outcome of the original method, the composed key batches of
the configured eviction specs, and the success of each store delete batch.
Result: the outcome seen by the caller, paired with the list of delete
batches the wrapper issued.  Because the deletes sit in a finally block
they are issued on both branches, and the inner catch makes the outcome
independent of mdelOk. -/
def cacheEvictHandle (origOutcome : Except Err Value)
    (specKeys : List (List String)) (mdelOk : List String → Bool) :
    Except Err Value × List (List String) :=
  match origOutcome with
  | Except.ok v =>
      -- original method succeeded; finally issues every delete batch and
      -- the inner catch swallows any failure reported through mdelOk
      (Except.ok v, specKeys)
  | Except.error e =>
      -- original method threw; the finally block still issues every
      -- delete batch before the error continues to the caller
      (Except.error e, specKeys)

/- ───────────────────────── TTL conversion ───────────────────────────── -/

/-- Model of the ttlSec computation in cacheableHandle
(src/cacheable.helper.ts, lines 140-145):

  const ttlSec = ttl !== undefined ? Math.ceil(ttl / 1000)
    : globalTTL > 0 ? Math.ceil(globalTTL / 1000) : 0;

Over naturals Math.ceil(n / 1000) is (n + 999) / 1000. -/
def ttlSeconds (ttl : Option Nat) (globalTTL : Nat) : Nat :=
  match ttl with
  | some t => (t + 999) / 1000
  | none => if globalTTL > 0 then (globalTTL + 999) / 1000 else 0

/-- The expiration argument of the store write: EX ttlSec when ttlSec > 0,
no expiration otherwise (src/cacheable.helper.ts, lines 148-152). -/
def writeExpiry (ttl : Option Nat) (globalTTL : Nat) : Option Nat :=
  let s := ttlSeconds ttl globalTTL
  if s > 0 then some s else none

/- ───────────────────────── Coalescing engine semantics ──────────────── -/

/-- Cache keys are strings. -/
abbrev Key := String

/-- The pluggable serializer boundary: encode a value to a payload and
decode a payload back (none models a deserialize throw; a decode to the
JavaScript undefined is treated identically, since cacheableHandle tests
cached !== undefined). -/
structure Serial where
  serialize : Value → Payload
  deserialize : Payload → Option Value

/-- Outcome of one cacheableHandle call as seen by its caller. -/
inductive COutcome where
  | ok : Value → COutcome
  | producerErr : Err → COutcome
  | writeErr : COutcome
deriving DecidableEq, Repr

/-- Where one caller of cacheableHandle currently is: before its first
synchronous segment, suspended on the shared store read, suspended on the
shared producer promise, suspended on its own store write, or settled. -/
inductive Phase where
  | ready : Phase
  | waitRead : Nat → Phase
  | waitCall : Nat → Phase
  | waitWrite : Nat → Phase
  | done : COutcome → Phase
deriving DecidableEq, Repr

/-- One caller of cacheableHandle: the key it was given, its per-call ttl
option (milliseconds), and its current phase. -/
structure CallerSt where
  key : Key
  ttl : Option Nat
  phase : Phase
deriving DecidableEq, Repr

/-- A pending store read (an entry of pendingCacheMap): the key being
read and the callers awaiting it, in registration order. -/
structure ReadRec where
  key : Key
  waiters : List Nat
deriving DecidableEq, Repr

/-- A pending producer invocation (the promise of a pendingMethodCallMap
entry): its key, its watchdog timer id, and the callers awaiting it in
registration order. -/
structure CallRec where
  key : Key
  timer : Nat
  waiters : List Nat
deriving DecidableEq, Repr

/-- An armed watchdog timer: the key whose map entry it purges and the
instant from which it may fire. -/
structure TimerRec where
  key : Key
  deadline : Nat
deriving DecidableEq, Repr

/-- A pending store write: the caller that issued it, the key, the
serialized payload, the expiration (some seconds, or none for no
expiration), and the value returned to the caller once the write lands. -/
structure WriteRec where
  caller : Nat
  key : Key
  data : Payload
  ex : Option Nat
  value : Value
deriving DecidableEq, Repr

/-- Update one slot of an id-indexed or key-indexed table. -/
def fupd {κ : Type} [DecidableEq κ] {α : Type} (m : κ → Option α) (k : κ)
    (v : Option α) : κ → Option α :=
  fun q => if q = k then v else m q

/-- Global engine state: the clock, the module configuration, the remote
store contents, the two coalescing maps, the pending external operations
with fresh-id counters, the callers, and two logs (keys of issued store
reads and of producer invocations, in issue order). -/
@[ext]
structure St where
  now : Nat
  pendingTimeout : Nat
  globalTTL : Nat
  store : Key → Option Payload
  cacheMap : Key → Option Nat
  callMap : Key → Option Nat
  reads : Nat → Option ReadRec
  nextRead : Nat
  calls : Nat → Option CallRec
  nextCall : Nat
  timers : Nat → Option TimerRec
  nextTimer : Nat
  writes : Nat → Option WriteRec
  nextWrite : Nat
  callers : Nat → Option CallerSt
  readLog : List Key
  invocations : List Key

/-- Scheduler events: start a caller, resolve a pending store read (ok
false is a read failure), settle a producer invocation, complete a store
write (ok false is a write failure), fire an armed watchdog timer, or let
one millisecond pass. -/
inductive Ev where
  | start : Nat → Ev
  | resolveRead : Nat → Bool → Ev
  | resolveCall : Nat → Except Err Value → Ev
  | resolveWrite : Nat → Bool → Ev
  | fireTimer : Nat → Ev
  | tick : Ev

/-- First synchronous segment of cacheableHandle (lines 111-117 up to the
await inside fetchCachedValue): join the pending store read for the key if
one exists, otherwise issue a fresh read and record it in pendingCacheMap;
then suspend on that read. -/
def startCaller (st : St) (i : Nat) : Option St :=
  match st.callers i with
  | none => none
  | some c =>
    match c.phase with
    | Phase.ready =>
        match st.cacheMap c.key with
        | some r =>
            match st.reads r with
            | some rr =>
                some { st with
                  reads := fupd st.reads r (some { rr with waiters := rr.waiters ++ [i] }),
                  callers := fupd st.callers i (some { c with phase := Phase.waitRead r }) }
            | none => none
        | none =>
            let r := st.nextRead
            some { st with
              reads := fupd st.reads r (some ⟨c.key, [i]⟩),
              nextRead := r + 1,
              cacheMap := fupd st.cacheMap c.key (some r),
              readLog := st.readLog ++ [c.key],
              callers := fupd st.callers i (some { c with phase := Phase.waitRead r }) }
    | _ => none

/-- Resume one waiter of a resolved store read (the segment from the end
of the await in fetchCachedValue through the next suspension): on a hit
return the cached value; on a miss join the pending producer for the key
if one exists, otherwise invoke the producer, arm its watchdog timer and
record the entry in pendingMethodCallMap (lines 113-129). -/
def resumeReadWaiter (st : St) (k : Key) (hit : Option Value) (i : Nat) : St :=
  match st.callers i with
  | none => st
  | some c =>
    match hit with
    | some v =>
        { st with callers := fupd st.callers i (some { c with phase := Phase.done (COutcome.ok v) }) }
    | none =>
        match st.callMap k with
        | some cid =>
            match st.calls cid with
            | some cr =>
                { st with
                  calls := fupd st.calls cid (some { cr with waiters := cr.waiters ++ [i] }),
                  callers := fupd st.callers i (some { c with phase := Phase.waitCall cid }) }
            | none => st
        | none =>
            let cid := st.nextCall
            let tid := st.nextTimer
            { st with
              calls := fupd st.calls cid (some ⟨k, tid, [i]⟩),
              nextCall := cid + 1,
              timers := fupd st.timers tid (some ⟨k, st.now + st.pendingTimeout⟩),
              nextTimer := tid + 1,
              callMap := fupd st.callMap k (some cid),
              invocations := st.invocations ++ [k],
              callers := fupd st.callers i (some { c with phase := Phase.waitCall cid }) }

/-- Resume one waiter of a settled producer (lines 131-152): clear the
watchdog timer and delete the pendingMethodCallMap entry (both
unconditional, in the finally block), then propagate a producer failure,
or serialize the value and issue the store write with the converted
expiration. -/
def resumeCallWaiter (S : Serial) (g : Nat) (k : Key) (t : Nat)
    (out : Except Err Value) (st : St) (i : Nat) : St :=
  match st.callers i with
  | none => st
  | some c =>
    let st1 := { st with
      timers := fupd st.timers t none,
      callMap := fupd st.callMap k none }
    match out with
    | Except.error e =>
        { st1 with callers := fupd st1.callers i (some { c with phase := Phase.done (COutcome.producerErr e) }) }
    | Except.ok v =>
        let w := st1.nextWrite
        { st1 with
          writes := fupd st1.writes w (some ⟨i, k, S.serialize v, writeExpiry c.ttl g, v⟩),
          nextWrite := w + 1,
          callers := fupd st1.callers i (some { c with phase := Phase.waitWrite w }) }

/-- One scheduler step of the cooperative semantics.  Resolution of an
external operation runs every registered continuation, in registration
order, to its next suspension point within the same atomic step (the
Node.js microtask discipline).  none means the event is not enabled. -/
def step (S : Serial) (e : Ev) (st : St) : Option St :=
  match e with
  | Ev.start i => startCaller st i
  | Ev.resolveRead r ok =>
      match st.reads r with
      | none => none
      | some rr =>
          let hit : Option Value :=
            if ok then (st.store rr.key).bind S.deserialize else none
          let st1 := { st with
            reads := fupd st.reads r none,
            cacheMap := fupd st.cacheMap rr.key none }
          some (rr.waiters.foldl (resumeReadWaiter · rr.key hit ·) st1)
  | Ev.resolveCall cid out =>
      match st.calls cid with
      | none => none
      | some cr =>
          let st1 := { st with calls := fupd st.calls cid none }
          some (cr.waiters.foldl (resumeCallWaiter S st.globalTTL cr.key cr.timer out · ·) st1)
  | Ev.resolveWrite w ok =>
      match st.writes w with
      | none => none
      | some wr =>
          let st1 := { st with writes := fupd st.writes w none }
          match st1.callers wr.caller with
          | none => some st1
          | some c =>
              if ok then
                some { st1 with
                  store := fupd st1.store wr.key (some wr.data),
                  callers := fupd st1.callers wr.caller (some { c with phase := Phase.done (COutcome.ok wr.value) }) }
              else
                some { st1 with
                  callers := fupd st1.callers wr.caller (some { c with phase := Phase.done COutcome.writeErr }) }
  | Ev.fireTimer t =>
      match st.timers t with
      | none => none
      | some tr =>
          if tr.deadline ≤ st.now then
            some { st with
              timers := fupd st.timers t none,
              callMap := fupd st.callMap tr.key none }
          else none
  | Ev.tick => some { st with now := st.now + 1 }

/-- Run a schedule of events from a state. -/
def run (S : Serial) (evs : List Ev) (st : St) : Option St :=
  evs.foldlM (fun s e => step S e s) st

/-- Default watchdog timeout of the published helper:
let pendingTimeout = 30000. -/
def defaultPendingTimeout : Nat := 30000

/-- Initial engine state: clock at zero, given configuration and store
contents, empty coalescing maps, no pending operations, callers taken from
the given list of (key, ttl) programs, all in phase ready. -/
def initSt (timeout g : Nat) (store0 : Key → Option Payload)
    (progs : List (Key × Option Nat)) : St where
  now := 0
  pendingTimeout := timeout
  globalTTL := g
  store := store0
  cacheMap := fun _ => none
  callMap := fun _ => none
  reads := fun _ => none
  nextRead := 0
  calls := fun _ => none
  nextCall := 0
  timers := fun _ => none
  nextTimer := 0
  writes := fun _ => none
  nextWrite := 0
  callers := fun i => (progs.get? i).map (fun p => ⟨p.1, p.2, Phase.ready⟩)
  readLog := []
  invocations := []

/- ───────────────────────── Key-order equivalence ────────────────────── -/

/-- Structural equality of argument values up to object key insertion
order: two values are related when one can be turned into the other by
reordering the fields of objects (with distinct keys), anywhere in the
structure. -/
inductive OrdEq : JVal → JVal → Prop where
  | refl (v : JVal) : OrdEq v v
  | trans {a b c : JVal} : OrdEq a b → OrdEq b c → OrdEq a c
  | arrCons {v w : JVal} {l1 l2 : List JVal} :
      OrdEq v w → OrdEq (JVal.jarr l1) (JVal.jarr l2) →
      OrdEq (JVal.jarr (v :: l1)) (JVal.jarr (w :: l2))
  | objCons {v w : JVal} {l1 l2 : List (String × JVal)} (k : String) :
      OrdEq v w → OrdEq (JVal.jobj l1) (JVal.jobj l2) →
      OrdEq (JVal.jobj ((k, v) :: l1)) (JVal.jobj ((k, w) :: l2))
  | objPerm {l1 l2 : List (String × JVal)} :
      l1.Perm l2 → (l1.map Prod.fst).Nodup →
      OrdEq (JVal.jobj l1) (JVal.jobj l2)

/-- The rendered elements of an array value (empty for other values). -/
def arrElems : JVal → List String
  | JVal.jarr l => strList l
  | _ => []

/-- The rendered, key-sorted fields of an object value (empty for other
values). -/
def objSorted : JVal → List (String × String)
  | JVal.jobj l => sortPairs (renderPairs l)
  | _ => []

instance : IsTotal (String × String) (fun p q => p.1 ≤ q.1) :=
  ⟨fun a b => le_total a.1 b.1⟩

instance : IsTrans (String × String) (fun p q => p.1 ≤ q.1) :=
  ⟨fun _ _ _ hab hbc => le_trans hab hbc⟩

instance : IsAntisymm (String × String) (fun p q => p.1 < q.1) :=
  ⟨fun _ _ h1 h2 => (lt_asymm h1 h2).elim⟩

/- ───────────────────────── Canonical coalescing run: stages ─────────── -/

/-- State after the first m of N simultaneous callers for key k have run
their first segment: all m share store read 0, the rest are still ready. -/
def stStarts (timeout g : Nat) (k : Key) (ttl : Option Nat) (N m : Nat) : St where
  now := 0
  pendingTimeout := timeout
  globalTTL := g
  store := fun _ => none
  cacheMap := fun q => if q = k ∧ 0 < m then some 0 else none
  callMap := fun _ => none
  reads := fun r => if r = 0 ∧ 0 < m then some ⟨k, List.range m⟩ else none
  nextRead := if 0 < m then 1 else 0
  calls := fun _ => none
  nextCall := 0
  timers := fun _ => none
  nextTimer := 0
  writes := fun _ => none
  nextWrite := 0
  callers := fun i =>
    if i < N then some ⟨k, ttl, if i < m then Phase.waitRead 0 else Phase.ready⟩
    else none
  readLog := if 0 < m then [k] else []
  invocations := []

/-- State while the miss continuations run: the first j of the N read
waiters have been resumed; the first of them invoked the producer (call 0
with watchdog timer 0), the others joined it. -/
def stJoin (timeout g : Nat) (k : Key) (ttl : Option Nat) (N j : Nat) : St where
  now := 0
  pendingTimeout := timeout
  globalTTL := g
  store := fun _ => none
  cacheMap := fun _ => none
  callMap := fun q => if q = k ∧ 0 < j then some 0 else none
  reads := fun _ => none
  nextRead := 1
  calls := fun c => if c = 0 ∧ 0 < j then some ⟨k, 0, List.range j⟩ else none
  nextCall := if 0 < j then 1 else 0
  timers := fun t => if t = 0 ∧ 0 < j then some ⟨k, timeout⟩ else none
  nextTimer := if 0 < j then 1 else 0
  writes := fun _ => none
  nextWrite := 0
  callers := fun i =>
    if i < N then
      some ⟨k, ttl, if i < j then Phase.waitCall 0 else Phase.waitRead 0⟩
    else none
  readLog := [k]
  invocations := if 0 < j then [k] else []

/-- State while the settle continuations run: the producer settled with
value v, the first j of the N call waiters have been resumed and each has
issued its own store write (caller j owns write j). -/
def stWrite (S : Serial) (timeout g : Nat) (k : Key) (ttl : Option Nat)
    (v : Value) (N j : Nat) : St where
  now := 0
  pendingTimeout := timeout
  globalTTL := g
  store := fun _ => none
  cacheMap := fun _ => none
  callMap := fun q => if q = k ∧ j = 0 then some 0 else none
  reads := fun _ => none
  nextRead := 1
  calls := fun _ => none
  nextCall := 1
  timers := fun t => if t = 0 ∧ j = 0 then some ⟨k, timeout⟩ else none
  nextTimer := 1
  writes := fun w =>
    if w < j then some ⟨w, k, S.serialize v, writeExpiry ttl g, v⟩ else none
  nextWrite := j
  callers := fun i =>
    if i < N then
      some ⟨k, ttl, if i < j then Phase.waitWrite i else Phase.waitCall 0⟩
    else none
  readLog := [k]
  invocations := [k]

/-- State while the writes land: the first j of the N store writes have
completed and their callers are settled with the producer value. -/
def stDone (S : Serial) (timeout g : Nat) (k : Key) (ttl : Option Nat)
    (v : Value) (N j : Nat) : St where
  now := 0
  pendingTimeout := timeout
  globalTTL := g
  store := fun q => if q = k ∧ 0 < j then some (S.serialize v) else none
  cacheMap := fun _ => none
  callMap := fun _ => none
  reads := fun _ => none
  nextRead := 1
  calls := fun _ => none
  nextCall := 1
  timers := fun _ => none
  nextTimer := 1
  writes := fun w =>
    if j ≤ w ∧ w < N then some ⟨w, k, S.serialize v, writeExpiry ttl g, v⟩
    else none
  nextWrite := N
  callers := fun i =>
    if i < N then
      some ⟨k, ttl, if i < j then Phase.done (COutcome.ok v) else Phase.waitWrite i⟩
    else none
  readLog := [k]
  invocations := [k]

/-- The schedule of the canonical coalescing run: N simultaneous arrivals,
then the shared store read resolves (a miss on an empty store), then the
single producer invocation settles with v, then the N write-backs land. -/
def coalesceSched (N : Nat) (v : Value) : List Ev :=
  (List.range N).map Ev.start
    ++ [Ev.resolveRead 0 true, Ev.resolveCall 0 (Except.ok v)]
    ++ (List.range N).map (fun j => Ev.resolveWrite j true)

/-- A key builder function whose call returns the string "42"
(the src text stands for its JavaScript source). -/
def fnKeyBuilder : KeySpec := KeySpec.fn "(id) => makeKey(id)" (fun _ => Sum.inl "42")

/-- A key builder function whose call returns the array of strings
["42"]. -/
def fnArrBuilder : KeySpec :=
  KeySpec.fn "(id) => [makeKey(id)]" (fun _ => Sum.inr ["42"])


/- ───────────────────────── Theorems: list and run helpers ───────────── -/

/- ───────────────────────── Theorems: stable serialization ──────────── -/

/-- renderPairs is the composition of a filter (drop undefined and
function values) and a per-field rendering map. -/
theorem renderPairs_eq (l : List (String × JVal)) :
    renderPairs l
      = (l.filter (fun p => !skipVal p.2)).map
          (fun p => (p.1, stringifyJ p.2)) := by
  induction l with
  | nil => rfl
  | cons p t ih =>
      obtain ⟨k, v⟩ := p
      by_cases h : skipVal v
      · simp [renderPairs, h, List.filter_cons, ih]
      · simp [renderPairs, h, List.filter_cons, ih]

/-- Permuting the fields permutes the rendered fields. -/
theorem renderPairs_perm {l1 l2 : List (String × JVal)} (h : l1.Perm l2) :
    (renderPairs l1).Perm (renderPairs l2) := by
  rw [renderPairs_eq, renderPairs_eq]
  exact (h.filter _).map _

/-- The keys of the rendered fields form a sublist of the original keys. -/
theorem renderPairs_keys_sublist (l : List (String × JVal)) :
    ((renderPairs l).map Prod.fst).Sublist (l.map Prod.fst) := by
  rw [renderPairs_eq]
  have h1 : ((l.filter (fun p => !skipVal p.2)).map
      (fun p => (p.1, stringifyJ p.2))).map Prod.fst
      = (l.filter (fun p => !skipVal p.2)).map Prod.fst := by
    simp [List.map_map]
  rw [h1]
  exact (List.filter_sublist l).map Prod.fst

/-- Sorting rendered fields by key is invariant under permutation when the
keys are distinct. -/
theorem sortPairs_perm_eq {A B : List (String × String)} (h : A.Perm B)
    (nd : (A.map Prod.fst).Nodup) : sortPairs A = sortPairs B := by
  have pA := List.perm_insertionSort (fun p q : String × String => p.1 ≤ q.1) A
  have pB := List.perm_insertionSort (fun p q : String × String => p.1 ≤ q.1) B
  have hperm : (sortPairs A).Perm (sortPairs B) := (pA.trans h).trans pB.symm
  have sA := List.sorted_insertionSort (fun p q : String × String => p.1 ≤ q.1) A
  have sB := List.sorted_insertionSort (fun p q : String × String => p.1 ≤ q.1) B
  have ndA : ((sortPairs A).map Prod.fst).Nodup := ((pA.map Prod.fst).nodup_iff).mpr nd
  have ndB : ((sortPairs B).map Prod.fst).Nodup := by
    have := ((h.map Prod.fst).nodup_iff).mp nd
    exact ((pB.map Prod.fst).nodup_iff).mpr this
  have neA : (sortPairs A).Pairwise (fun p q => p.1 ≠ q.1) :=
    List.pairwise_map.mp ndA
  have neB : (sortPairs B).Pairwise (fun p q => p.1 ≠ q.1) :=
    List.pairwise_map.mp ndB
  have sA2 : (sortPairs A).Pairwise (fun p q : String × String => p.1 < q.1) :=
    (sA.and neA).imp (fun hx => lt_of_le_of_ne hx.1 hx.2)
  have sB2 : (sortPairs B).Pairwise (fun p q : String × String => p.1 < q.1) :=
    (sB.and neB).imp (fun hx => lt_of_le_of_ne hx.1 hx.2)
  exact List.eq_of_perm_of_sorted hperm sA2 sB2

/-- Core invariance result: values that agree up to object key insertion
order have equal skip status, equal stable serialization, equal rendered
array elements and equal sorted rendered fields. -/
theorem OrdEq.stringify_agree {v w : JVal} (h : OrdEq v w) :
    skipVal v = skipVal w ∧ stringifyJ v = stringifyJ w ∧
    arrElems v = arrElems w ∧ objSorted v = objSorted w := by
  induction h with
  | refl v => exact ⟨rfl, rfl, rfl, rfl⟩
  | trans h1 h2 ih1 ih2 =>
      exact ⟨ih1.1.trans ih2.1, ih1.2.1.trans ih2.2.1,
        ih1.2.2.1.trans ih2.2.2.1, ih1.2.2.2.trans ih2.2.2.2⟩
  | arrCons h1 h2 ih1 ih2 =>
      have he : strList _ = strList _ := ih2.2.2.1
      refine ⟨rfl, ?_, ?_, rfl⟩
      · show "[" ++ commaJoin (strList _) ++ "]" = "[" ++ commaJoin (strList _) ++ "]"
        rw [strList, strList, ih1.2.1, he]
      · show strList _ = strList _
        rw [strList, strList, ih1.2.1, he]
  | objCons k h1 h2 ih1 ih2 =>
      rename_i va wa la lb
      have hf : sortPairs (renderPairs la) = sortPairs (renderPairs lb) := ih2.2.2.2
      have hs : skipVal va = skipVal wa := ih1.1
      have hobj : sortPairs (renderPairs ((k, va) :: la))
          = sortPairs (renderPairs ((k, wa) :: lb)) := by
        rw [renderPairs, renderPairs, ← hs]
        by_cases hv : skipVal va
        · rw [if_pos hv, if_pos hv]
          exact hf
        · rw [if_neg hv, if_neg hv, ih1.2.1]
          simp only [sortPairs, List.insertionSort] at hf ⊢
          rw [hf]
      refine ⟨rfl, ?_, rfl, hobj⟩
      show "\x7b" ++ commaJoin ((sortPairs (renderPairs ((k, va) :: la))).map renderPair) ++ "\x7d"
        = "\x7b" ++ commaJoin ((sortPairs (renderPairs ((k, wa) :: lb))).map renderPair) ++ "\x7d"
      rw [hobj]
  | objPerm hp nd =>
      have hr := renderPairs_perm hp
      have ndr : ((renderPairs _).map Prod.fst).Nodup :=
        nd.sublist (renderPairs_keys_sublist _)
      have hobj : sortPairs (renderPairs _) = sortPairs (renderPairs _) :=
        sortPairs_perm_eq hr ndr
      refine ⟨rfl, ?_, rfl, hobj⟩
      show "\x7b" ++ commaJoin ((sortPairs (renderPairs _)).map renderPair) ++ "\x7d"
        = "\x7b" ++ commaJoin ((sortPairs (renderPairs _)).map renderPair) ++ "\x7d"
      rw [hobj]



theorem run_append (S : Serial) (a b : List Ev) (st : St) :
    run S (a ++ b) st = (run S a st).bind (run S b) := by
  induction a generalizing st with
  | nil => simp [run, List.foldlM]
  | cons e t ih =>
      show run S (e :: (t ++ b)) st = _
      simp only [run, List.foldlM]
      cases h : step S e st with
      | none => simp [Option.bind]
      | some st1 => simpa [Option.bind] using ih st1

theorem run_single (S : Serial) (e : Ev) (st : St) :
    run S [e] st = step S e st := by
  simp only [run, List.foldlM]
  cases step S e st <;> simp

/- ───────────────────────── Theorems: coalescing run stages ──────────── -/

theorem initSt_replicate (timeout g : Nat) (k : Key) (ttl : Option Nat) (N : Nat) :
    initSt timeout g (fun _ => none) (List.replicate N (k, ttl))
      = stStarts timeout g k ttl N 0 := by
  unfold initSt stStarts
  ext <;> simp [List.getElem?_replicate]

theorem step_start (S : Serial) (timeout g : Nat) (k : Key) (ttl : Option Nat)
    (N m : Nat) (hm : m < N) :
    step S (Ev.start m) (stStarts timeout g k ttl N m)
      = some (stStarts timeout g k ttl N (m + 1)) := by
  by_cases hm0 : 0 < m
  · unfold step startCaller
    simp only [stStarts, if_pos hm, hm0, Nat.lt_irrefl, Nat.zero_lt_succ,
      and_true, true_and, and_self, eq_self_iff_true, if_true, if_false,
      ite_true, ite_false]
    refine congrArg some ?_
    ext <;> (try rfl) <;>
      simp [fupd, List.range_succ] <;>
      split_ifs <;> first | rfl | omega | simp_all | (intros; first | rfl | omega | simp_all)
  · have hz : m = 0 := by omega
    subst hz
    unfold step startCaller
    simp only [stStarts, if_pos hm, Nat.lt_irrefl, Nat.zero_lt_succ,
      and_true, true_and, and_self, and_false, eq_self_iff_true, if_true,
      if_false, ite_true, ite_false]
    refine congrArg some ?_
    ext <;> (try rfl) <;>
      simp [fupd, List.range_succ] <;>
      split_ifs <;> first | rfl | omega | simp_all | (intros; first | rfl | omega | simp_all)

theorem run_starts (S : Serial) (timeout g : Nat) (k : Key) (ttl : Option Nat)
    (N m : Nat) (hm : m ≤ N) :
    run S ((List.range m).map Ev.start) (stStarts timeout g k ttl N 0)
      = some (stStarts timeout g k ttl N m) := by
  induction m with
  | zero => simp [run, List.foldlM]
  | succ j ih =>
      rw [List.range_succ, List.map_append, run_append,
        ih (Nat.le_of_succ_le hm)]
      show (run S [Ev.start j] _) = _
      rw [run_single, step_start S timeout g k ttl N j (Nat.lt_of_succ_le hm)]

theorem run_cons (S : Serial) (e : Ev) (t : List Ev) (st : St) :
    run S (e :: t) st = (step S e st).bind (run S t) := by
  simp only [run, List.foldlM]
  cases step S e st <;> simp

theorem resumeRead_step (timeout g : Nat) (k : Key) (ttl : Option Nat)
    (N j : Nat) (hj : j < N) :
    resumeReadWaiter (stJoin timeout g k ttl N j) k none j
      = stJoin timeout g k ttl N (j + 1) := by
  by_cases hj0 : 0 < j
  · unfold resumeReadWaiter
    simp only [stJoin, if_pos hj, hj0, Nat.lt_irrefl, Nat.zero_lt_succ,
      and_true, true_and, and_self, eq_self_iff_true, if_true, if_false,
      ite_true, ite_false]
    ext <;> (try rfl) <;>
      simp [fupd, List.range_succ] <;>
      split_ifs <;> first | rfl | omega | simp_all | (intros; first | rfl | omega | simp_all)
  · have hz : j = 0 := by omega
    subst hz
    unfold resumeReadWaiter
    simp only [stJoin, if_pos hj, Nat.lt_irrefl, Nat.zero_lt_succ,
      and_true, true_and, and_self, and_false, eq_self_iff_true, if_true,
      if_false, ite_true, ite_false]
    ext <;> (try rfl) <;>
      simp [fupd, List.range_succ] <;>
      split_ifs <;> first | rfl | omega | simp_all | (intros; first | rfl | omega | simp_all)

theorem fold_resumeRead (timeout g : Nat) (k : Key) (ttl : Option Nat)
    (N j : Nat) (hj : j ≤ N) :
    List.foldl (fun s i => resumeReadWaiter s k none i)
        (stJoin timeout g k ttl N 0) (List.range j)
      = stJoin timeout g k ttl N j := by
  induction j with
  | zero => simp
  | succ i ih =>
      rw [List.range_succ, List.foldl_append, ih (Nat.le_of_succ_le hj)]
      show resumeReadWaiter _ k none i = _
      exact resumeRead_step timeout g k ttl N i (Nat.lt_of_succ_le hj)

theorem step_resolveRead (S : Serial) (timeout g : Nat) (k : Key)
    (ttl : Option Nat) (N : Nat) (hN : 0 < N) :
    step S (Ev.resolveRead 0 true) (stStarts timeout g k ttl N N)
      = some (stJoin timeout g k ttl N N) := by
  unfold step
  simp only [stStarts, hN, and_true, true_and, and_self, eq_self_iff_true,
    if_true, ite_true, Option.none_bind, Option.bind]
  refine congrArg some ?_
  rw [← fold_resumeRead timeout g k ttl N N (le_refl N)]
  congr 1
  ext <;> (try rfl) <;>
    (try simp [stStarts, stJoin, fupd, hN]) <;>
    (try split_ifs) <;>
    first | rfl | omega | simp_all | (intros; first | rfl | omega | simp_all)

theorem resumeCall_step (S : Serial) (timeout g : Nat) (k : Key)
    (ttl : Option Nat) (v : Value) (N j : Nat) (hj : j < N) :
    resumeCallWaiter S g k 0 (Except.ok v)
        (stWrite S timeout g k ttl v N j) j
      = stWrite S timeout g k ttl v N (j + 1) := by
  unfold resumeCallWaiter
  simp only [stWrite, if_pos hj]
  ext : 2
  all_goals try rfl
  all_goals try simp [fupd]
  all_goals try split_ifs
  all_goals first | rfl | omega | simp_all

theorem fold_resumeCall (S : Serial) (timeout g : Nat) (k : Key)
    (ttl : Option Nat) (v : Value) (N j : Nat) (hj : j ≤ N) :
    List.foldl (fun s i => resumeCallWaiter S g k 0 (Except.ok v) s i)
        (stWrite S timeout g k ttl v N 0) (List.range j)
      = stWrite S timeout g k ttl v N j := by
  induction j with
  | zero => simp
  | succ i ih =>
      rw [List.range_succ, List.foldl_append, ih (Nat.le_of_succ_le hj)]
      show resumeCallWaiter S g k 0 (Except.ok v) _ i = _
      exact resumeCall_step S timeout g k ttl v N i (Nat.lt_of_succ_le hj)

theorem step_resolveCall (S : Serial) (timeout g : Nat) (k : Key)
    (ttl : Option Nat) (v : Value) (N : Nat) (hN : 0 < N) :
    step S (Ev.resolveCall 0 (Except.ok v)) (stJoin timeout g k ttl N N)
      = some (stWrite S timeout g k ttl v N N) := by
  unfold step
  simp only [stJoin, hN, and_true, true_and, and_self, eq_self_iff_true,
    if_true, ite_true]
  refine congrArg some ?_
  rw [← fold_resumeCall S timeout g k ttl v N N (le_refl N)]
  congr 1
  ext <;> (try rfl) <;>
    (try simp [stJoin, stWrite, fupd, hN]) <;>
    (try split_ifs) <;>
    first | rfl | omega | simp_all | (intros; first | rfl | omega | simp_all)

theorem stWrite_full_eq (S : Serial) (timeout g : Nat) (k : Key)
    (ttl : Option Nat) (v : Value) (N : Nat) (hN : 0 < N) :
    stWrite S timeout g k ttl v N N = stDone S timeout g k ttl v N 0 := by
  ext : 2
  all_goals try rfl
  all_goals try simp [stWrite, stDone]
  all_goals try split_ifs
  all_goals first | rfl | omega | simp_all

theorem step_write (S : Serial) (timeout g : Nat) (k : Key)
    (ttl : Option Nat) (v : Value) (N j : Nat) (hj : j < N) :
    step S (Ev.resolveWrite j true) (stDone S timeout g k ttl v N j)
      = some (stDone S timeout g k ttl v N (j + 1)) := by
  unfold step
  simp only [stDone, le_refl, hj, and_true, true_and, and_self,
    eq_self_iff_true, if_true, ite_true, if_pos hj]
  refine congrArg some ?_
  ext : 2
  all_goals try rfl
  all_goals try simp [stDone, fupd]
  all_goals try split_ifs
  all_goals first | rfl | omega | simp_all

theorem run_writes (S : Serial) (timeout g : Nat) (k : Key)
    (ttl : Option Nat) (v : Value) (N j : Nat) (hj : j ≤ N) :
    run S ((List.range j).map (fun w => Ev.resolveWrite w true))
        (stDone S timeout g k ttl v N 0)
      = some (stDone S timeout g k ttl v N j) := by
  induction j with
  | zero => simp [run, List.foldlM]
  | succ i ih =>
      rw [List.range_succ, List.map_append, run_append,
        ih (Nat.le_of_succ_le hj)]
      show (run S [Ev.resolveWrite i true] _) = _
      rw [run_single, step_write S timeout g k ttl v N i (Nat.lt_of_succ_le hj)]

/-- C1: for every key and every N ≥ 2 concurrent callers of cacheableHandle
with the same uncached key (all arrive before the shared store read
resolves, the store read misses, the producer settles with v, the
write-backs succeed), the producer is invoked exactly once (the invocation
log holds a single entry) and every caller settles with the value of that
single invocation. -/
theorem coalescing_invokes_once (S : Serial) (timeout g : Nat) (k : Key)
    (ttl : Option Nat) (v : Value) (N : Nat) (hN : 2 ≤ N) :
    ∃ stF, run S (coalesceSched N v)
        (initSt timeout g (fun _ => none) (List.replicate N (k, ttl)))
          = some stF
      ∧ stF.invocations = [k]
      ∧ ∀ i, i < N →
          stF.callers i = some ⟨k, ttl, Phase.done (COutcome.ok v)⟩ := by
  have hN0 : 0 < N := by omega
  refine ⟨stDone S timeout g k ttl v N N, ?_, ?_, ?_⟩
  · rw [initSt_replicate]
    unfold coalesceSched
    rw [run_append, run_append, run_starts S timeout g k ttl N N (le_refl N)]
    simp only [Option.some_bind]
    rw [run_cons, step_resolveRead S timeout g k ttl N hN0]
    simp only [Option.some_bind]
    rw [run_single, step_resolveCall S timeout g k ttl v N hN0]
    simp only [Option.some_bind]
    rw [stWrite_full_eq S timeout g k ttl v N hN0,
      run_writes S timeout g k ttl v N N (le_refl N)]
  · rfl
  · intro i hi
    simp [stDone, hi]

/-- Witness for C1 at N = 2, key "k", no per-call ttl, value 7, identity
serializer. -/
theorem coalescing_invokes_once_witness :
    ∃ stF, run ⟨fun v => v, fun p => some p⟩ (coalesceSched 2 7)
        (initSt 30000 0 (fun _ => none) (List.replicate 2 ("k", none)))
          = some stF
      ∧ stF.invocations = ["k"]
      ∧ ∀ i, i < 2 →
          stF.callers i = some ⟨"k", none, Phase.done (COutcome.ok 7)⟩ :=
  coalescing_invokes_once ⟨fun v => v, fun p => some p⟩ 30000 0 "k" none 7 2
    (by omega)

/-- C8: when the store lookup succeeds and its payload deserializes to a
defined value, cacheableHandle settles immediately with the cached value:
the producer invocation log stays empty and no store write is ever issued
(the store is left untouched). -/
theorem cache_hit_skips_producer (S : Serial) (timeout g : Nat) (k : Key)
    (ttl : Option Nat) (store0 : Key → Option Payload) (p : Payload)
    (v : Value) (hstore : store0 k = some p)
    (hdeser : S.deserialize p = some v) :
    ((run S [Ev.start 0, Ev.resolveRead 0 true]
        (initSt timeout g store0 [(k, ttl)])).map
      (fun st => (st.callers 0, st.invocations, st.nextWrite, st.store)))
      = some (some ⟨k, ttl, Phase.done (COutcome.ok v)⟩, [], 0, store0) := by
  simp [run, step, startCaller, resumeReadWaiter, initSt, fupd, hstore,
    hdeser, List.foldlM]

/-- Witness for C8: identity serializer, key "k" cached with payload 7. -/
theorem cache_hit_skips_producer_witness :
    ((run ⟨fun v => v, fun p => some p⟩ [Ev.start 0, Ev.resolveRead 0 true]
        (initSt 30000 0 (fun q => if q = "k" then some 7 else none)
          [("k", none)])).map
      (fun st => (st.callers 0, st.invocations, st.nextWrite, st.store)))
      = some (some ⟨"k", none, Phase.done (COutcome.ok 7)⟩, [], 0,
          fun q => if q = "k" then some 7 else none) :=
  cache_hit_skips_producer ⟨fun v => v, fun p => some p⟩ 30000 0 "k" none
    (fun q => if q = "k" then some 7 else none) 7 7 (by simp) (by simp)

/-- C7: a store-read failure is swallowed and treated as a miss:
the caller goes on to invoke the producer (one entry in the invocation
log) and, when the producer and the write-back succeed, settles with the
produced value; the read failure is never surfaced. -/
theorem read_failure_treated_as_miss (S : Serial) (timeout g : Nat)
    (k : Key) (ttl : Option Nat) (store0 : Key → Option Payload) (v : Value) :
    ((run S [Ev.start 0, Ev.resolveRead 0 false,
        Ev.resolveCall 0 (Except.ok v), Ev.resolveWrite 0 true]
        (initSt timeout g store0 [(k, ttl)])).map
      (fun st => (st.callers 0, st.invocations, st.store k)))
      = some (some ⟨k, ttl, Phase.done (COutcome.ok v)⟩, [k],
          some (S.serialize v)) := by
  simp [run, step, startCaller, resumeReadWaiter, resumeCallWaiter, initSt,
    fupd, List.foldlM]

theorem run_nil (S : Serial) (st : St) : run S [] st = some st := rfl

theorem run_ticks (S : Serial) (n : Nat) (st : St) :
    run S (List.replicate n Ev.tick) st = some { st with now := st.now + n } := by
  induction n generalizing st with
  | zero => simp [run, List.foldlM]
  | succ m ih =>
      rw [List.replicate_succ, run_cons,
        show step S Ev.tick st = some { st with now := st.now + 1 } from rfl,
        Option.some_bind, ih]
      refine congrArg some ?_
      ext : 2
      all_goals try simp only
      all_goals first | rfl | omega | (simp; omega)

/-- C9: an in-flight producer record whose producer has not settled is
removed from pendingMethodCallMap once the watchdog timeout has elapsed
and its timer fires (first run: after the timeout the map entry for k is
gone even though producer invocation 0 is still pending), and a
subsequent caller for the same key then starts a fresh producer
invocation instead of awaiting the stale one (second run: the invocation
log grows to two entries and caller 1 awaits the new invocation 1, while
the stale invocation 0 is still unsettled).  The timer can only fire once
the clock has advanced past the configured timeout. -/
theorem watchdog_releases_stale_record (S : Serial) (timeout g : Nat)
    (k : Key) (ttl : Option Nat) :
    defaultPendingTimeout = 30000
    ∧ ((run S ([Ev.start 0, Ev.resolveRead 0 false]
          ++ List.replicate timeout Ev.tick ++ [Ev.fireTimer 0])
        (initSt timeout g (fun _ => none) [(k, ttl), (k, ttl)])).map
        (fun st => (st.callMap k, st.calls 0, st.invocations)))
        = some (none, some ⟨k, 0, [0]⟩, [k])
    ∧ ((run S ([Ev.start 0, Ev.resolveRead 0 false]
          ++ List.replicate timeout Ev.tick ++ [Ev.fireTimer 0]
          ++ [Ev.start 1, Ev.resolveRead 1 false])
        (initSt timeout g (fun _ => none) [(k, ttl), (k, ttl)])).map
        (fun st => (st.invocations, st.callers 1, st.callMap k, st.calls 0)))
        = some ([k, k], some ⟨k, ttl, Phase.waitCall 1⟩, some 1,
            some ⟨k, 0, [0]⟩) := by
  refine ⟨rfl, ?_, ?_⟩
  · simp [run_append, run_cons, run_nil, run_ticks, step, startCaller,
      resumeReadWaiter, initSt, fupd, List.foldlM]
  · simp [run_append, run_cons, run_nil, run_ticks, step, startCaller,
      resumeReadWaiter, initSt, fupd, List.foldlM]

/-- C10: the Cacheable decorator hands only element zero of the composed
key list to the coalescing engine — for an explicit key sequence
k1 :: rest the engine key is k1 — and the engine run reads and writes the
store solely under that key: the read log and invocation log mention only
k1, the write lands at k1, and any other key k2 is untouched. -/
theorem cacheable_uses_first_key_only (hash : String → String)
    (mname : String) (args : List JVal) (k1 k2 : Key) (rest : List String)
    (S : Serial) (timeout g : Nat) (ttl : Option Nat) (v : Value)
    (hk : k2 ≠ k1) :
    cacheableComposedKey hash (some (KeySpec.strs (k1 :: rest))) none mname args
        = Except.ok (some (KeyElem.str k1))
    ∧ ((run S [Ev.start 0, Ev.resolveRead 0 true,
          Ev.resolveCall 0 (Except.ok v), Ev.resolveWrite 0 true]
        (initSt timeout g (fun _ => none) [(k1, ttl)])).map
        (fun st => (st.readLog, st.invocations, st.store k1, st.store k2)))
        = some ([k1], [k1], some (S.serialize v), none) := by
  refine ⟨rfl, ?_⟩
  simp [run, step, startCaller, resumeReadWaiter, resumeCallWaiter, initSt,
    fupd, List.foldlM, hk]

/-- Witness for C10 with key sequence ["a", "b"] and probe key "z". -/
theorem cacheable_uses_first_key_only_witness :
    cacheableComposedKey (fun s => s) (some (KeySpec.strs ["a", "b"])) none
        "m" [] = Except.ok (some (KeyElem.str "a"))
    ∧ ((run ⟨fun v => v, fun p => some p⟩ [Ev.start 0, Ev.resolveRead 0 true,
          Ev.resolveCall 0 (Except.ok 7), Ev.resolveWrite 0 true]
        (initSt 30000 0 (fun _ => none) [("a", none)])).map
        (fun st => (st.readLog, st.invocations, st.store "a", st.store "z")))
        = some (["a"], ["a"], some 7, none) :=
  cacheable_uses_first_key_only (fun s => s) "m" [] "a" "z" ["b"]
    ⟨fun v => v, fun p => some p⟩ 30000 0 none 7 (by decide)

/-- C2 (code_bug evaluation): the CacheEvict wrapper issues its delete
batches even when the original method throws — the outcome error 7 is
propagated unchanged but the delete batch list is the full spec list, not
empty — and when the method succeeds but the store delete fails, the
method result is still returned. -/
theorem cacheEvict_deletes_on_throw :
    cacheEvictHandle (Except.error 7) [["user:42"]] (fun _ => true)
        = (Except.error 7, [["user:42"]])
    ∧ cacheEvictHandle (Except.ok 1) [["user:42"]] (fun _ => false)
        = (Except.ok 1, [["user:42"]])
    ∧ ([["user:42"]] : List (List String)) ≠ [] :=
  ⟨rfl, rfl, by decide⟩

/-- C3: the millisecond-to-second TTL conversion is the ceiling of
ttl / 1000 — the stored lifetime is never shorter than requested (first
conjunct) and is the least whole-second lifetime at least as long
(second conjunct) — a requested TTL of 1500 ms is written with EX 2, and
an effective TTL of exactly 0 is written without expiration. -/
theorem ttl_rounding_ceiling (g ttl : Nat) :
    ttl ≤ 1000 * ttlSeconds (some ttl) g
    ∧ (∀ m : Nat, ttl ≤ 1000 * m → ttlSeconds (some ttl) g ≤ m)
    ∧ writeExpiry (some 1500) g = some 2
    ∧ writeExpiry (some 0) 0 = none := by
  refine ⟨?_, ?_, rfl, rfl⟩
  · simp only [ttlSeconds]
    omega
  · intro m hm
    simp only [ttlSeconds]
    omega

/-- Witness for C3 at ttl = 1500 ms and m = 2 s. -/
theorem ttl_rounding_ceiling_witness :
    1500 ≤ 1000 * ttlSeconds (some 1500) 0 ∧ ttlSeconds (some 1500) 0 ≤ 2 :=
  ⟨(ttl_rounding_ceiling 0 1500).1, (ttl_rounding_ceiling 0 1500).2.1 2 (by decide)⟩

/-- C4 (code_bug evaluation): the published extract discards the value
returned by a builder function.  For a builder returning the string "42"
it yields the one-element array holding the builder function itself, not
the array ["42"] the draft extract produces; and composing with a builder
that returns an array of strings throws (keys.map is applied to a bare
function), while the string-returning builder leaks the function value
into the composed key list. -/
theorem extract_discards_builder_result :
    Helper.extract fnKeyBuilder [] = ExtractResult.funSingleton "(id) => makeKey(id)"
    ∧ Helper.extract fnKeyBuilder [] ≠ ExtractResult.strings ["42"]
    ∧ HelperV0.extract fnKeyBuilder [] = ["42"]
    ∧ generateComposedKey (fun s => s) (some fnKeyBuilder) none "m" []
        = Except.ok [KeyElem.fnval "(id) => makeKey(id)"]
    ∧ generateComposedKey (fun s => s) (some fnArrBuilder) none "m" []
        = Except.error () :=
  ⟨rfl, by decide, rfl, rfl, rfl⟩

/-- C5: automatic key composition (no explicit key) is invariant under
object key insertion order of the arguments: OrdEq argument arrays
compose to the identical key, for every hash function and method name;
and composition is a pure function, so composing twice from the same
inputs yields the identical result. -/
theorem autoKey_key_order_invariant (hash : String → String) (mname : String)
    (args args2 : List JVal)
    (h : OrdEq (JVal.jarr args) (JVal.jarr args2)) :
    generateComposedKey hash none none mname args
        = generateComposedKey hash none none mname args2
    ∧ generateComposedKey hash none none mname args
        = generateComposedKey hash none none mname args := by
  refine ⟨?_, rfl⟩
  have hs := h.stringify_agree
  simp [generateComposedKey, truthyOpt, hs.2.1]

/-- Witness for C5: the two-field object with keys a, b in both insertion
orders composes to the identical automatic key. -/
theorem autoKey_key_order_invariant_witness :
    generateComposedKey (fun s => s) none none "getUser"
        [JVal.jobj [("a", JVal.jnum 1), ("b", JVal.jnum 2)]]
      = generateComposedKey (fun s => s) none none "getUser"
        [JVal.jobj [("b", JVal.jnum 2), ("a", JVal.jnum 1)]] :=
  (autoKey_key_order_invariant (fun s => s) "getUser" _ _
    (OrdEq.arrCons (OrdEq.objPerm (List.Perm.swap _ _ _) (by decide))
      (OrdEq.refl (JVal.jarr [])))).1

/-- C6: automatic key composition completes (returns a key, never throws)
on every argument list, in particular on lists containing functions,
undefined values, or circular references: the stable serialization is
total on them. -/
theorem autoKey_total_on_nonserializable (hash : String → String)
    (mname : String) (args : List JVal)
    (h : hasNonSerializableList args = true) :
    generateComposedKey hash none none mname args
      = Except.ok [KeyElem.str
          (mname ++ "@" ++ hash (stringifyJ (JVal.jarr args)))] := rfl

/-- Witness for C6 on the argument list [function, circular]. -/
theorem autoKey_total_on_nonserializable_witness :
    hasNonSerializableList [JVal.jfun, JVal.jref] = true
    ∧ generateComposedKey (fun s => s) none none "m" [JVal.jfun, JVal.jref]
        = Except.ok [KeyElem.str
            ("m" ++ "@" ++ (fun s => s) (stringifyJ (JVal.jarr [JVal.jfun, JVal.jref])))] :=
  ⟨rfl, autoKey_total_on_nonserializable (fun s => s) "m" [JVal.jfun, JVal.jref] rfl⟩
